import Mathlib

/-!
Verification of the slacktor actor registry and its slab allocators.

This development shallowly embeds the two slot allocators appearing in the
slacktor repository and the actor registry built on top of them:

* `Slab` — the generational slot allocator of `src/slab.rs` (keys are
  index/generation pairs, `SlabKey`);
* `XSlab` — the external `slab` crate that `src/lib.rs` actually instantiates
  (`slab::Slab`, plain `usize` keys, vacant-entry free list); the crate is a
  dependency consumed by the registry, embedded here from its published
  semantics (`insert` returns the head of the vacant list or appends,
  `remove` pushes the slot back onto the vacant list, `get`/`contains` test
  occupancy);
* `Slacktor` — the registry of `src/lib.rs`, storing type-erased actor
  handles (`Arc<dyn ActorRef>`) inside an `XSlab` and recovering them by
  checked downcast.

Rust's `Vec` is embedded as a `List` plus an explicit capacity field,
`Arc<A>` as the value itself (handles are immutable copies), and the `Any`
downcast as a decidable tag test over a family of actor types.
-/

/-! ## The generational slab of `src/slab.rs` -/

/-- Type `SlabKey` of `src/slab.rs`: a generational index. -/
structure SlabKey where
  index : Nat
  generation : Nat
deriving DecidableEq, Repr

/-- Type `Entry<T>` of `src/slab.rs`: an entry is either `Used(value)` or
`Free(next_free_index)`. -/
inductive Entry (T : Type) where
  | Used : T → Entry T
  | Free : Nat → Entry T
deriving DecidableEq, Repr

/-- Type `SlabEntry<T>` of `src/slab.rs`: the entry together with its generation
counter. -/
structure SlabEntry (T : Type) where
  entry : Entry T
  generation : Nat
deriving DecidableEq, Repr

/-- Type `Slab<T>` of `src/slab.rs`.  The Rust `Vec<SlabEntry<T>>` is embedded as
the list `entries` together with its reserved `capacity`
(`Vec::with_capacity(c)` reserves room for `c` elements without creating
any). -/
structure Slab (T : Type) where
  entries : List (SlabEntry T)
  next_free : Nat
  used : Nat
  capacity : Nat
  initial_capacity : Nat
deriving DecidableEq, Repr

namespace Slab

/-- Constructor `Slab::new(capacity)`: empty entries, `next_free = 0`, `used = 0`,
reserved capacity `capacity`. -/
def new (T : Type) (capacity : Nat) : Slab T :=
  ⟨[], 0, 0, capacity, capacity⟩

/-- Outcome of `Slab::insert`: `ok key s'` for `Some(key)` with updated
state, `exhausted` for the `None` return (the slab is left unchanged), and
`corrupted` for the `panic!("The slab's free list is corrupted!")` branch
taken when the entry at `next_free` is found `Used`. -/
inductive InsertResult (T : Type) where
  | ok : SlabKey → Slab T → InsertResult T
  | exhausted : InsertResult T
  | corrupted : InsertResult T
deriving DecidableEq, Repr

/-- Function `Slab::insert` of `src/slab.rs`, step for step: look up the entry at
`next_free`; if present it must be `Free` (else the fatal branch); the key is
built from `next_free` and the entry's current generation, `next_free` is
popped off the embedded free list and the entry becomes `Used`.  If absent,
either the reserved capacity is exhausted (`None`) or a fresh entry with
generation `0` is appended and `next_free` is set past the end. -/
def insert (s : Slab T) (value : T) : InsertResult T :=
  match s.entries[s.next_free]? with
  | some slab_entry =>
    match slab_entry.entry with
    | Entry.Free next_free =>
      InsertResult.ok ⟨s.next_free, slab_entry.generation⟩
        { s with
          entries := s.entries.set s.next_free ⟨Entry.Used value, slab_entry.generation⟩,
          next_free := next_free,
          used := s.used + 1 }
    | Entry.Used _ => InsertResult.corrupted
  | none =>
    if s.next_free ≥ s.capacity then
      InsertResult.exhausted
    else
      InsertResult.ok ⟨s.entries.length, 0⟩
        { s with
          entries := s.entries ++ [⟨Entry.Used value, 0⟩],
          next_free := s.entries.length + 1,
          used := s.used + 1 }

/-- Function `Slab::remove` of `src/slab.rs`: a no-op unless the index is in range,
the entry is `Used` and the generation matches; otherwise the generation is
incremented, the entry becomes `Free(next_free)`, `next_free` moves to this
index and `used` is decremented. -/
def remove (s : Slab T) (key : SlabKey) : Slab T :=
  match s.entries[key.index]? with
  | none => s
  | some slab_entry =>
    match slab_entry.entry with
    | Entry.Used _ =>
      if slab_entry.generation ≠ key.generation then s
      else
        { s with
          entries := s.entries.set key.index
            ⟨Entry.Free s.next_free, slab_entry.generation + 1⟩,
          next_free := key.index,
          used := s.used - 1 }
    | Entry.Free _ => s

/-- Function `Slab::get` of `src/slab.rs`: the stored value, only if the index is in
range, the entry is `Used` and the generation matches. -/
def get (s : Slab T) (key : SlabKey) : Option T :=
  match s.entries[key.index]? with
  | none => none
  | some slab_entry =>
    match slab_entry.entry with
    | Entry.Used value =>
      if key.generation = slab_entry.generation then some value else none
    | Entry.Free _ => none

/-- Function `Slab::get_mut` of `src/slab.rs`: same lookup condition as `get` (the
returned mutable borrow targets the same value). -/
def get_mut (s : Slab T) (key : SlabKey) : Option T :=
  match s.entries[key.index]? with
  | none => none
  | some slab_entry =>
    match slab_entry.entry with
    | Entry.Used value =>
      if key.generation = slab_entry.generation then some value else none
    | Entry.Free _ => none

/-- Writing through the mutable borrow returned by `Slab::get_mut`: replaces
the stored value exactly when `get_mut` succeeds, leaving the slab's
bookkeeping (tag, generation, free list, counters) untouched. -/
def write (s : Slab T) (key : SlabKey) (value : T) : Slab T :=
  match s.entries[key.index]? with
  | none => s
  | some slab_entry =>
    match slab_entry.entry with
    | Entry.Used _ =>
      if key.generation = slab_entry.generation then
        { s with
          entries := s.entries.set key.index
            ⟨Entry.Used value, slab_entry.generation⟩ }
      else s
    | Entry.Free _ => s

/-- Function `Slab::increase_capacity` of `src/slab.rs`: reserve `additional` more
slots, defaulting to doubling the current capacity. -/
def increase_capacity (s : Slab T) (additional : Option Nat) : Slab T :=
  { s with capacity := s.capacity + additional.getD s.capacity }

/-- Function `Slab::deallocate_to` of `src/slab.rs`: destructive full reset — a fresh
`Vec` at the given capacity, `next_free = 0`, `used = 0`. -/
def deallocate_to (_s : Slab T) (capacity : Nat) : Slab T :=
  ⟨[], 0, 0, capacity, capacity⟩

/-- Function `Slab::clear` of `src/slab.rs`: `deallocate_to(initial_capacity)`. -/
def clear (s : Slab T) : Slab T :=
  s.deallocate_to s.initial_capacity

/-- Function `Slab::len` of `src/slab.rs`: the `used` count. -/
def len (s : Slab T) : Nat := s.used

/-- Boolean occupancy test on an entry tag. -/
def isUsedB : Entry T → Bool
  | Entry.Used _ => true
  | Entry.Free _ => false

/-- Number of `Used` entries actually stored. -/
def countUsed (entries : List (SlabEntry T)) : Nat :=
  entries.countP fun e => isUsedB e.entry

end Slab

namespace Slab

/-- One mutating operation on a `Slab`: a successful `insert`, a `remove`, or
a write through the borrow returned by `get_mut`.  Lookups (`get`,
`get_mut`), a `None`-returning `insert` and a no-op `remove` leave the state
unchanged, so they are covered by reflexivity of the closure below. -/
inductive Step (T : Type) : Slab T → Slab T → Prop where
  | insert_ok (s : Slab T) (v : T) (k : SlabKey) (s' : Slab T) :
      s.insert v = InsertResult.ok k s' → Step T s s'
  | remove (s : Slab T) (k : SlabKey) : Step T s (s.remove k)
  | write (s : Slab T) (k : SlabKey) (v : T) : Step T s (s.write k v)

/-- Any finite sequence of `insert`/`remove`/`get_mut`-write operations. -/
def Steps (T : Type) : Slab T → Slab T → Prop :=
  Relation.ReflTransGen (Step T)

/-- States reachable from `Slab::new(c)` by `insert`, `remove`, `get`,
`get_mut` (and writes through it). -/
inductive Reach (T : Type) : Slab T → Prop where
  | new (c : Nat) : Reach T (new T c)
  | step {s s' : Slab T} : Reach T s → Step T s s' → Reach T s'

/-- The index `i` holds a `Free` entry. -/
def isFree (entries : List (SlabEntry T)) (i : Nat) : Prop :=
  ∃ nxt gen, entries[i]? = some ⟨Entry.Free nxt, gen⟩

/-- The free-list chain starting at `n` visits exactly the indices in `fl`
(in order), each holding a `Free` entry whose stored link is the next
element, and terminates at the append position `entries.length`. -/
def IsFreeChain (entries : List (SlabEntry T)) : Nat → List Nat → Prop
  | n, [] => n = entries.length
  | n, i :: rest =>
      n = i ∧ ∃ nxt gen, entries[i]? = some ⟨Entry.Free nxt, gen⟩ ∧
        IsFreeChain entries nxt rest

/-- Allocator bookkeeping invariant of `src/slab.rs`: some duplicate-free
list `fl` is the free-list chain hanging off `next_free`, it contains
exactly the `Free` indices, `used` counts the `Used` entries, `Used` and
`Free` entries partition the storage, and the storage never exceeds the
reserved capacity. -/
structure InvWith (s : Slab T) (fl : List Nat) : Prop where
  chain : IsFreeChain s.entries s.next_free fl
  nodup : fl.Nodup
  mem_iff : ∀ i, i ∈ fl ↔ isFree s.entries i
  used_eq : s.used = countUsed s.entries
  len_eq : countUsed s.entries + fl.length = s.entries.length
  cap_le : s.entries.length ≤ s.capacity

/-- The allocator bookkeeping invariant, with the free list existential. -/
def Inv (s : Slab T) : Prop :=
  ∃ fl, InvWith s fl

end Slab

/-! ## The external `slab` crate instantiated by `src/lib.rs`

`src/lib.rs` declares only `pub mod actor;`; the `slab::Slab` it stores
actors in is the external `slab` crate (plain `usize` keys returned by
`insert`, `contains`/`get`/`remove`/`vacant_key` API, const `new()`), not
the generational `Slab` of `src/slab.rs`.  The crate is embedded from its
published semantics: entries are `Occupied(value)` or `Vacant(next_key)`,
`next` is the head of the vacant list (also the value of `vacant_key`), and
an insert either appends at the end or pops the vacant-list head. -/

/-- Entry of the external `slab` crate: occupied, or vacant with the link
to the next vacant slot. -/
inductive XEntry (T : Type) where
  | occupied : T → XEntry T
  | vacant : Nat → XEntry T
deriving DecidableEq, Repr

/-- State of the external `slab::Slab<T>`. -/
structure XSlab (T : Type) where
  entries : List (XEntry T)
  next : Nat
  len : Nat
deriving DecidableEq, Repr

namespace XSlab

/-- Function `slab::Slab::new()`: empty, unbounded growth. -/
def new (T : Type) : XSlab T := ⟨[], 0, 0⟩

/-- Function `slab::Slab::insert`: the returned key is `next`; if `next`
equals the storage length a fresh entry is appended and `next` moves past
it, otherwise the vacant entry at `next` is occupied and `next` follows its
stored link.  `none` embeds the crate's `unreachable!` abort, taken only if
the entry at `next` is occupied (never from reachable states). -/
def insert (s : XSlab T) (v : T) : Option (Nat × XSlab T) :=
  if s.next = s.entries.length then
    some (s.next, ⟨s.entries ++ [XEntry.occupied v], s.next + 1, s.len + 1⟩)
  else
    match s.entries[s.next]? with
    | some (XEntry.vacant nxt) =>
      some (s.next, ⟨s.entries.set s.next (XEntry.occupied v), nxt, s.len + 1⟩)
    | _ => none

/-- Function `slab::Slab::remove` (via `try_remove`): take the occupied
value, replace the entry with `Vacant(next)` and point `next` at this key;
`none` if the key is out of range or vacant (where `remove` would panic —
`src/lib.rs` always guards it with `contains`). -/
def remove (s : XSlab T) (key : Nat) : Option (T × XSlab T) :=
  match s.entries[key]? with
  | some (XEntry.occupied v) =>
    some (v, ⟨s.entries.set key (XEntry.vacant s.next), key, s.len - 1⟩)
  | _ => none

/-- Function `slab::Slab::get`. -/
def get (s : XSlab T) (key : Nat) : Option T :=
  match s.entries[key]? with
  | some (XEntry.occupied v) => some v
  | _ => none

/-- Function `slab::Slab::contains`. -/
def contains (s : XSlab T) (key : Nat) : Bool :=
  match s.entries[key]? with
  | some (XEntry.occupied _) => true
  | _ => false

/-- Function `slab::Slab::vacant_key`: the key the next insert will use,
without mutation. -/
def vacant_key (s : XSlab T) : Nat := s.next

end XSlab

/-! ## Actors, type erasure and the registry of `src/lib.rs`

Concrete Rust actor types are modelled as a family: `κ` is the set of
concrete types (standing for `TypeId`s behind `dyn Any`), `I t` the values
of the concrete type `t`.  `ActorHandle<A>` is `#[repr(transparent)]`
around `Arc<A>`; since handles are immutable shared references, a handle is
embedded as the wrapped actor value itself, and `clone` returns the same
value — the value outlives registry bookkeeping exactly as an `Arc` clone
does. -/

/-- Type `ActorHandle<A>` of `src/actor.rs`: a shared-ownership wrapper
around one concrete actor instance. -/
structure ActorHandle {κ : Type} (I : κ → Type) (t : κ) where
  val : I t

/-- Function `ActorHandle::clone`: an `Arc` clone shares the same actor. -/
def ActorHandle.clone {κ : Type} {I : κ → Type} {t : κ}
    (h : ActorHandle I t) : ActorHandle I t := h

/-- Function `ActorHandle::send` of `src/actor.rs`: a direct, immediate
invocation of the actor's `handle_message` implementation (the `Handler<M>`
impl for the concrete type, passed here as the function `handler`),
returning exactly its result.  It consults only the handle, never the
registry. -/
def ActorHandle.send {κ : Type} {I : κ → Type} {t : κ} {M R : Type}
    (h : ActorHandle I t) (handler : I t → M → R) (m : M) : R :=
  handler h.val m

/-- The erased `Arc<dyn ActorRef>` stored in the registry's slab: the
concrete type tag together with the handle (trait object = data pointer
plus vtable identifying the concrete type). -/
structure ActorRef (κ : Type) (I : κ → Type) where
  tag : κ
  handle : ActorHandle I tag

/-- Checked recovery `as_any().downcast_ref::<ActorHandle<A>>()`: succeeds
exactly when the stored concrete type is the requested one. -/
def ActorRef.downcast {κ : Type} [DecidableEq κ] {I : κ → Type}
    (e : ActorRef κ I) (t : κ) : Option (ActorHandle I t) :=
  if h : e.tag = t then some (h ▸ e.handle) else none

/-- Type `Slacktor` of `src/lib.rs`: the registry owning one external-crate
slab of erased actor handles. -/
structure Slacktor (κ : Type) (I : κ → Type) where
  slab : XSlab (ActorRef κ I)

namespace Slacktor

/-- Function `Slacktor::new`. -/
def new (κ : Type) (I : κ → Type) : Slacktor κ I := ⟨XSlab.new _⟩

/-- Function `Slacktor::next_id`: `slab.vacant_key()`. -/
def next_id {κ : Type} {I : κ → Type} (s : Slacktor κ I) : Nat :=
  s.slab.vacant_key

/-- Function `Slacktor::spawn`: wrap the actor in a fresh handle, erase its
type and insert it; the returned identifier is the slab's plain `usize`
key. -/
def spawn {κ : Type} {I : κ → Type} (s : Slacktor κ I) (t : κ) (a : I t) :
    Option (Nat × Slacktor κ I) :=
  (s.slab.insert ⟨t, ⟨a⟩⟩).map fun p => (p.1, ⟨p.2⟩)

/-- Function `Slacktor::get`: resolve the id in the slab, then downcast to
the declared actor type; absent on unknown id or mismatched type. -/
def get {κ : Type} [DecidableEq κ] {I : κ → Type} (s : Slacktor κ I)
    (t : κ) (id : Nat) : Option (ActorHandle I t) :=
  (s.slab.get id).bind fun e => e.downcast t

/-- Function `Slacktor::kill` (sync configuration): exit early if the slab
does not contain `id`; otherwise remove the erased handle and call its
`kill`, which invokes the actor's `destroy` hook.  The second component
lists the erased handles whose `destroy` hook this call invoked (the hook
runs once per listed element). -/
def kill {κ : Type} {I : κ → Type} (s : Slacktor κ I) (id : Nat) :
    Slacktor κ I × List (ActorRef κ I) :=
  if s.slab.contains id then
    match s.slab.remove id with
    | some (a, slab2) => (⟨slab2⟩, [a])
    | none => (s, [])
  else (s, [])

/-- Function `Slacktor::kill` (async configuration, parameterized by the
declared actor type `t`): exit early if absent; remove; downcast to the
declared type — on failure the `?` operator returns `None` with the entry
already removed and the `destroy` hook never invoked; on success await the
hook and return `Some(())`.  Components: new state, returned
`Option<()>`, hooks invoked. -/
def kill_async {κ : Type} [DecidableEq κ] {I : κ → Type} (s : Slacktor κ I)
    (t : κ) (id : Nat) : Slacktor κ I × Option Unit × List (ActorRef κ I) :=
  if s.slab.contains id then
    match s.slab.remove id with
    | some (a, slab2) =>
      match a.downcast t with
      | some _ => (⟨slab2⟩, some (), [a])
      | none => (⟨slab2⟩, none, [])
    | none => (s, none, [])
  else (s, none, [])

end Slacktor

/-- The concrete actor universe used in the scenario checks: two distinct
concrete actor types, one holding a `Nat` (the XOR test actor of the
examples), one holding a `Bool`. -/
inductive TestTy where
  | testActor
  | otherActor
deriving DecidableEq, Repr

/-- Concrete values of the two test actor types. -/
abbrev TestInterp : TestTy → Type
  | TestTy.testActor => Nat
  | TestTy.otherActor => Bool

/-- The XOR message handler of the examples: the handler result is the
message payload XORed with the stored value. -/
def testHandler : TestInterp TestTy.testActor → Nat → Nat :=
  fun a m => m ^^^ a

namespace Slab

theorem IsFreeChain.set_notMem {entries : List (SlabEntry T)} {n : Nat}
    {fl : List Nat} (h : IsFreeChain entries n fl) (j : Nat) (e : SlabEntry T)
    (hj : j ∉ fl) : IsFreeChain (entries.set j e) n fl := by
  induction fl generalizing n with
  | nil => simpa [IsFreeChain] using h
  | cons i rest ih =>
    obtain ⟨rfl, nxt, gen, hget, hrest⟩ := h
    refine ⟨rfl, nxt, gen, ?_, ih hrest (fun hm => hj (List.mem_cons_of_mem _ hm))⟩
    rw [List.getElem?_set_ne (fun hji => hj (by rw [hji]; exact List.mem_cons_self _ _))]
    exact hget

theorem isFree_set_used {entries : List (SlabEntry T)} {j : Nat} {v : T}
    {g : Nat} (i : Nat) :
    isFree (entries.set j ⟨Entry.Used v, g⟩) i ↔ i ≠ j ∧ isFree entries i := by
  constructor
  · rintro ⟨nxt, gen, hget⟩
    rcases eq_or_ne i j with rfl | hne
    · rw [List.getElem?_set] at hget
      simp only [if_pos rfl] at hget
      split at hget <;> simp_all
    · exact ⟨hne, nxt, gen, by rwa [List.getElem?_set_ne (Ne.symm hne)] at hget⟩
  · rintro ⟨hne, nxt, gen, hget⟩
    exact ⟨nxt, gen, by rwa [List.getElem?_set_ne (Ne.symm hne)]⟩

theorem isFree_set_free {entries : List (SlabEntry T)} {j : Nat} {nf : Nat}
    {g : Nat} (hj : j < entries.length) (i : Nat) :
    isFree (entries.set j ⟨Entry.Free nf, g⟩) i ↔ i = j ∨ isFree entries i := by
  rcases eq_or_ne i j with rfl | hne
  · exact ⟨fun _ => Or.inl rfl, fun _ => ⟨nf, g, List.getElem?_set_self hj⟩⟩
  · constructor
    · rintro ⟨nxt, gen, hget⟩
      rw [List.getElem?_set_ne (Ne.symm hne)] at hget
      exact Or.inr ⟨nxt, gen, hget⟩
    · rintro (rfl | ⟨nxt, gen, hget⟩)
      · exact absurd rfl hne
      · exact ⟨nxt, gen, by rwa [List.getElem?_set_ne (Ne.symm hne)]⟩

theorem isFree_append_used {entries : List (SlabEntry T)} {v : T} {g : Nat}
    (i : Nat) :
    isFree (entries ++ [⟨Entry.Used v, g⟩]) i ↔ isFree entries i := by
  unfold isFree
  rcases lt_trichotomy i entries.length with hlt | rfl | hgt
  · simp [List.getElem?_append, hlt]
  · simp [List.getElem?_concat_length, List.getElem?_eq_none (le_refl _)]
  · rw [List.getElem?_append_right (le_of_lt hgt),
      List.getElem?_eq_none (by omega : entries.length ≤ i)]
    constructor
    · rintro ⟨nxt, gen, hget⟩
      rw [List.getElem?_eq_none (by simp only [List.length_singleton]; omega)] at hget
      exact absurd hget (by simp)
    · rintro ⟨_, _, h⟩; simp at h

theorem countUsed_set {entries : List (SlabEntry T)} {j : Nat}
    (old : SlabEntry T) (hget : entries[j]? = some old)
    (enew : SlabEntry T) :
    countUsed (entries.set j enew) =
      (countUsed entries - (if isUsedB old.entry then 1 else 0)) +
      (if isUsedB enew.entry then 1 else 0) := by
  obtain ⟨hlt, hval⟩ := List.getElem?_eq_some.mp hget
  unfold countUsed
  rw [List.countP_set _ _ _ _ hlt, hval]

theorem countUsed_pos {entries : List (SlabEntry T)} {j : Nat} {x : T}
    {g : Nat} (h : entries[j]? = some ⟨Entry.Used x, g⟩) :
    0 < countUsed entries := by
  obtain ⟨hlt, hval⟩ := List.getElem?_eq_some.mp h
  exact List.countP_pos_iff.mpr ⟨entries[j], List.getElem_mem hlt, by rw [hval]; rfl⟩

end Slab

namespace Slab

theorem countUsed_set_free_to_used {entries : List (SlabEntry T)} {j : Nat}
    {n g : Nat} (hget : entries[j]? = some ⟨Entry.Free n, g⟩) (v : T)
    (g2 : Nat) :
    countUsed (entries.set j ⟨Entry.Used v, g2⟩) = countUsed entries + 1 := by
  rw [countUsed_set ⟨Entry.Free n, g⟩ hget ⟨Entry.Used v, g2⟩]
  simp [isUsedB]

theorem countUsed_set_used_to_free {entries : List (SlabEntry T)} {j : Nat}
    {x : T} {g : Nat} (hget : entries[j]? = some ⟨Entry.Used x, g⟩) (n : Nat)
    (g2 : Nat) :
    countUsed (entries.set j ⟨Entry.Free n, g2⟩) = countUsed entries - 1 := by
  rw [countUsed_set ⟨Entry.Used x, g⟩ hget ⟨Entry.Free n, g2⟩]
  simp [isUsedB]

theorem countUsed_set_used_to_used {entries : List (SlabEntry T)} {j : Nat}
    {x : T} {g : Nat} (hget : entries[j]? = some ⟨Entry.Used x, g⟩) (v : T)
    (g2 : Nat) :
    countUsed (entries.set j ⟨Entry.Used v, g2⟩) = countUsed entries := by
  rw [countUsed_set ⟨Entry.Used x, g⟩ hget ⟨Entry.Used v, g2⟩]
  have := countUsed_pos hget
  simp [isUsedB]
  omega

theorem Inv.of_new (T : Type) (c : Nat) : Inv (new T c) := by
  refine ⟨[], ?_, List.nodup_nil, ?_, rfl, rfl, ?_⟩
  · simp [IsFreeChain, new]
  · intro i
    simp [isFree, new]
  · simp [new]

theorem Inv.insert_ok {s : Slab T} {v : T} {k : SlabKey} {s' : Slab T}
    (h : Inv s) (hins : s.insert v = InsertResult.ok k s') : Inv s' := by
  obtain ⟨fl, hch, hnd, hmem, huse, hlen, hcap⟩ := h
  unfold insert at hins
  cases hget : s.entries[s.next_free]? with
  | none =>
    rw [hget] at hins
    by_cases hcapb : s.next_free ≥ s.capacity
    · rw [if_pos hcapb] at hins; cases hins
    · rw [if_neg hcapb] at hins
      injection hins with hk hs
      subst hs
      cases fl with
      | cons i rest =>
        obtain ⟨hi, nxt2, gen2, hget2, _⟩ := hch
        subst hi
        rw [hget] at hget2
        cases hget2
      | nil =>
        have hnf : s.next_free = s.entries.length := hch
        refine ⟨[], ?_, List.nodup_nil, ?_, ?_, ?_, ?_⟩
        · simp [IsFreeChain, List.length_append]
        · intro j
          simp only [List.not_mem_nil, false_iff]
          rw [isFree_append_used]
          intro hf
          exact absurd ((hmem j).mpr hf) (List.not_mem_nil j)
        · show s.used + 1 = countUsed (s.entries ++ [⟨Entry.Used v, 0⟩])
          unfold countUsed at huse ⊢
          rw [List.countP_append, huse]
          simp [List.countP_cons, isUsedB]
        · show countUsed (s.entries ++ [⟨Entry.Used v, 0⟩]) + _ = _
          unfold countUsed at hlen ⊢
          rw [List.countP_append, List.length_append]
          simp only [List.length_nil, Nat.add_zero] at hlen
          have h1 : List.countP (fun e => isUsedB e.entry)
              [(⟨Entry.Used v, 0⟩ : SlabEntry T)] = 1 := by
            simp [List.countP_cons, isUsedB]
          rw [h1, hlen]
          simp
        · simp only [List.length_append, List.length_cons, List.length_nil]
          omega
  | some slab_entry =>
    rw [hget] at hins
    obtain ⟨ent, gen⟩ := slab_entry
    cases ent with
    | Used x => cases hins
    | Free nxt =>
      injection hins with hk hs
      subst hs
      have hlt : s.next_free < s.entries.length := (List.getElem?_eq_some.mp hget).1
      cases fl with
      | nil =>
        have hnf : s.next_free = s.entries.length := hch
        omega
      | cons i rest =>
        obtain ⟨hi, nxt2, gen2, hget2, hrest⟩ := hch
        subst hi
        rw [hget] at hget2
        simp only [Option.some.injEq, SlabEntry.mk.injEq, Entry.Free.injEq] at hget2
        obtain ⟨hnxt, hgen⟩ := hget2
        subst hnxt; subst hgen
        obtain ⟨hhead, htail⟩ := List.nodup_cons.mp hnd
        refine ⟨rest, ?_, htail, ?_, ?_, ?_, ?_⟩
        · exact IsFreeChain.set_notMem hrest s.next_free _ hhead
        · intro j
          rw [show (({ s with
              entries := s.entries.set s.next_free ⟨Entry.Used v, gen⟩,
              next_free := nxt, used := s.used + 1 } : Slab T).entries)
            = s.entries.set s.next_free ⟨Entry.Used v, gen⟩ from rfl]
          rw [isFree_set_used]
          constructor
          · intro hj
            refine ⟨fun he => hhead (he ▸ hj), (hmem j).mp (List.mem_cons_of_mem _ hj)⟩
          · rintro ⟨hne, hf⟩
            rcases List.mem_cons.mp ((hmem j).mpr hf) with rfl | hj
            · exact absurd rfl hne
            · exact hj
        · show s.used + 1 = countUsed (s.entries.set s.next_free ⟨Entry.Used v, gen⟩)
          rw [countUsed_set_free_to_used hget v gen, huse]
        · show countUsed (s.entries.set s.next_free ⟨Entry.Used v, gen⟩) + rest.length
            = (s.entries.set s.next_free ⟨Entry.Used v, gen⟩).length
          rw [countUsed_set_free_to_used hget v gen, List.length_set]
          simp only [List.length_cons] at hlen
          omega
        · rw [List.length_set]
          exact hcap

end Slab

namespace Slab

theorem Inv.remove_inv {s : Slab T} (h : Inv s) (k : SlabKey) :
    Inv (s.remove k) := by
  obtain ⟨fl, hch, hnd, hmem, huse, hlen, hcap⟩ := h
  unfold remove
  cases hget : s.entries[k.index]? with
  | none => exact ⟨fl, hch, hnd, hmem, huse, hlen, hcap⟩
  | some slab_entry =>
    obtain ⟨ent, gen⟩ := slab_entry
    cases ent with
    | Free n => exact ⟨fl, hch, hnd, hmem, huse, hlen, hcap⟩
    | Used x =>
      dsimp only
      by_cases hgen : gen ≠ k.generation
      · rw [if_pos hgen]
        exact ⟨fl, hch, hnd, hmem, huse, hlen, hcap⟩
      · rw [if_neg hgen]
        have hlt : k.index < s.entries.length := (List.getElem?_eq_some.mp hget).1
        have hnotmem : k.index ∉ fl := by
          intro hm
          obtain ⟨nxt, g2, hF⟩ := (hmem k.index).mp hm
          rw [hget] at hF
          cases hF
        refine ⟨k.index :: fl, ?_, List.nodup_cons.mpr ⟨hnotmem, hnd⟩, ?_, ?_, ?_, ?_⟩
        · exact ⟨rfl, s.next_free, gen + 1, List.getElem?_set_self hlt,
            IsFreeChain.set_notMem hch _ _ hnotmem⟩
        · intro j
          rw [List.mem_cons]
          show _ ↔ isFree (s.entries.set k.index ⟨Entry.Free s.next_free, gen + 1⟩) j
          rw [isFree_set_free hlt]
          exact or_congr Iff.rfl (hmem j)
        · show s.used - 1 = countUsed (s.entries.set k.index ⟨Entry.Free s.next_free, gen + 1⟩)
          rw [countUsed_set_used_to_free hget s.next_free (gen + 1), huse]
        · show countUsed (s.entries.set k.index ⟨Entry.Free s.next_free, gen + 1⟩)
            + (k.index :: fl).length
            = (s.entries.set k.index ⟨Entry.Free s.next_free, gen + 1⟩).length
          rw [countUsed_set_used_to_free hget s.next_free (gen + 1), List.length_set]
          have hpos := countUsed_pos hget
          simp only [List.length_cons]
          omega
        · rw [List.length_set]
          exact hcap

theorem Inv.write_inv {s : Slab T} (h : Inv s) (k : SlabKey) (v : T) :
    Inv (s.write k v) := by
  obtain ⟨fl, hch, hnd, hmem, huse, hlen, hcap⟩ := h
  unfold write
  cases hget : s.entries[k.index]? with
  | none => exact ⟨fl, hch, hnd, hmem, huse, hlen, hcap⟩
  | some slab_entry =>
    obtain ⟨ent, gen⟩ := slab_entry
    cases ent with
    | Free n => exact ⟨fl, hch, hnd, hmem, huse, hlen, hcap⟩
    | Used x =>
      dsimp only
      by_cases hg : k.generation = gen
      · rw [if_pos hg]
        have hnotmem : k.index ∉ fl := by
          intro hm
          obtain ⟨nxt, g2, hF⟩ := (hmem k.index).mp hm
          rw [hget] at hF
          cases hF
        refine ⟨fl, IsFreeChain.set_notMem hch _ _ hnotmem, hnd, ?_, ?_, ?_, ?_⟩
        · intro j
          show _ ↔ isFree (s.entries.set k.index ⟨Entry.Used v, gen⟩) j
          rw [isFree_set_used]
          constructor
          · intro hj
            exact ⟨fun he => hnotmem (he ▸ hj), (hmem j).mp hj⟩
          · rintro ⟨_, hf⟩
            exact (hmem j).mpr hf
        · show s.used = countUsed (s.entries.set k.index ⟨Entry.Used v, gen⟩)
          rw [countUsed_set_used_to_used hget v gen]
          exact huse
        · show countUsed (s.entries.set k.index ⟨Entry.Used v, gen⟩) + fl.length
            = (s.entries.set k.index ⟨Entry.Used v, gen⟩).length
          rw [countUsed_set_used_to_used hget v gen, List.length_set]
          exact hlen
        · rw [List.length_set]
          exact hcap
      · rw [if_neg hg]
        exact ⟨fl, hch, hnd, hmem, huse, hlen, hcap⟩

theorem Step.inv_preserved {s s' : Slab T} (hs : Step T s s') (h : Inv s) :
    Inv s' := by
  cases hs with
  | insert_ok a b c d => exact Inv.insert_ok h d
  | remove k => exact Inv.remove_inv h k
  | write k v => exact Inv.write_inv h k v

theorem Reach.inv {s : Slab T} (h : Reach T s) : Inv s := by
  induction h with
  | new c => exact Inv.of_new T c
  | step _ hs ih => exact hs.inv_preserved ih

end Slab

namespace Slab

theorem Step.generation_mono_single {s s' : Slab T} (hs : Step T s s') {i : Nat}
    {e : SlabEntry T} (hget : s.entries[i]? = some e) :
    ∃ e', s'.entries[i]? = some e' ∧ e.generation ≤ e'.generation := by
  cases hs with
  | insert_ok v k s2 hins =>
    unfold insert at hins
    cases hg : s.entries[s.next_free]? with
    | none =>
      rw [hg] at hins
      by_cases hb : s.next_free ≥ s.capacity
      · rw [if_pos hb] at hins; cases hins
      · rw [if_neg hb] at hins
        injection hins with hk hs2
        subst hs2
        have hlt : i < s.entries.length := (List.getElem?_eq_some.mp hget).1
        refine ⟨e, ?_, le_refl _⟩
        show (s.entries ++ [⟨Entry.Used v, 0⟩])[i]? = some e
        rw [List.getElem?_append, if_pos hlt]
        exact hget
    | some se =>
      rw [hg] at hins
      obtain ⟨ent, gen⟩ := se
      cases ent with
      | Used x => cases hins
      | Free nxt =>
        injection hins with hk hs2
        subst hs2
        show ∃ e', (s.entries.set s.next_free ⟨Entry.Used v, gen⟩)[i]? = some e' ∧ _
        rcases eq_or_ne s.next_free i with rfl | hne
        · have hlt := (List.getElem?_eq_some.mp hg).1
          have he : e = ⟨Entry.Free nxt, gen⟩ := by
            rw [hget] at hg
            exact Option.some.inj hg
          refine ⟨⟨Entry.Used v, gen⟩, List.getElem?_set_self hlt, ?_⟩
          rw [he]
        · exact ⟨e, by rw [List.getElem?_set_ne hne]; exact hget, le_refl _⟩
  | remove k =>
    unfold Slab.remove
    cases hg : s.entries[k.index]? with
    | none => exact ⟨e, hget, le_refl _⟩
    | some se =>
      obtain ⟨ent, gen⟩ := se
      cases ent with
      | Free n => exact ⟨e, hget, le_refl _⟩
      | Used x =>
        dsimp only
        by_cases hgen : gen ≠ k.generation
        · rw [if_pos hgen]
          exact ⟨e, hget, le_refl _⟩
        · rw [if_neg hgen]
          rcases eq_or_ne k.index i with rfl | hne
          · have hlt := (List.getElem?_eq_some.mp hg).1
            have he : e = ⟨Entry.Used x, gen⟩ := by
              rw [hget] at hg
              exact Option.some.inj hg
            refine ⟨⟨Entry.Free s.next_free, gen + 1⟩, List.getElem?_set_self hlt, ?_⟩
            rw [he]
            exact Nat.le_succ gen
          · exact ⟨e, by rw [List.getElem?_set_ne hne]; exact hget, le_refl _⟩
  | write k v =>
    unfold Slab.write
    cases hg : s.entries[k.index]? with
    | none => exact ⟨e, hget, le_refl _⟩
    | some se =>
      obtain ⟨ent, gen⟩ := se
      cases ent with
      | Free n => exact ⟨e, hget, le_refl _⟩
      | Used x =>
        dsimp only
        by_cases hgen : k.generation = gen
        · rw [if_pos hgen]
          rcases eq_or_ne k.index i with rfl | hne
          · have hlt := (List.getElem?_eq_some.mp hg).1
            have he : e = ⟨Entry.Used x, gen⟩ := by
              rw [hget] at hg
              exact Option.some.inj hg
            refine ⟨⟨Entry.Used v, gen⟩, List.getElem?_set_self hlt, ?_⟩
            rw [he]
          · exact ⟨e, by rw [List.getElem?_set_ne hne]; exact hget, le_refl _⟩
        · rw [if_neg hgen]
          exact ⟨e, hget, le_refl _⟩

theorem Steps.generation_mono_closure {s s' : Slab T} (hs : Steps T s s') {i : Nat}
    {e : SlabEntry T} (hget : s.entries[i]? = some e) :
    ∃ e', s'.entries[i]? = some e' ∧ e.generation ≤ e'.generation := by
  induction hs with
  | refl => exact ⟨e, hget, le_refl _⟩
  | tail _ hlast ih =>
    obtain ⟨e1, hg1, hle1⟩ := ih
    obtain ⟨e2, hg2, hle2⟩ := hlast.generation_mono_single hg1
    exact ⟨e2, hg2, le_trans hle1 hle2⟩

theorem get_mut_eq_get (s : Slab T) (k : SlabKey) : s.get_mut k = s.get k := rfl

theorem get_eq_none_of_gen_ne {s : Slab T} {k : SlabKey} {e : SlabEntry T}
    (hget : s.entries[k.index]? = some e) (hne : k.generation ≠ e.generation) :
    s.get k = none := by
  unfold get
  rw [hget]
  obtain ⟨ent, gen⟩ := e
  cases ent with
  | Used x =>
    dsimp only
    rw [if_neg hne]
  | Free n => rfl

theorem remove_valid {s : Slab T} {k : SlabKey} {x : T}
    (h : s.entries[k.index]? = some ⟨Entry.Used x, k.generation⟩) :
    (s.remove k).entries =
      s.entries.set k.index ⟨Entry.Free s.next_free, k.generation + 1⟩ ∧
    (s.remove k).next_free = k.index ∧
    (s.remove k).used = s.used - 1 := by
  unfold remove
  rw [h]
  dsimp only
  rw [if_neg (by simp)]
  exact ⟨rfl, rfl, rfl⟩

end Slab

namespace Slab

theorem insert_of_free {T : Type} {s : Slab T} {nxt gen : Nat}
    (hg : s.entries[s.next_free]? = some ⟨Entry.Free nxt, gen⟩) (v : T) :
    s.insert v = InsertResult.ok ⟨s.next_free, gen⟩
      { s with
        entries := s.entries.set s.next_free ⟨Entry.Used v, gen⟩,
        next_free := nxt,
        used := s.used + 1 } := by
  unfold insert
  rw [hg]

theorem insert_get {T : Type} {s : Slab T} {v : T} {k : SlabKey} {s' : Slab T}
    (hins : s.insert v = InsertResult.ok k s') : s'.get k = some v := by
  unfold insert at hins
  cases hg : s.entries[s.next_free]? with
  | none =>
    rw [hg] at hins
    by_cases hb : s.next_free ≥ s.capacity
    · rw [if_pos hb] at hins; cases hins
    · rw [if_neg hb] at hins
      injection hins with hk hs2
      subst hs2
      subst hk
      unfold get
      dsimp only
      rw [List.getElem?_concat_length]
      simp
  | some se =>
    rw [hg] at hins
    obtain ⟨ent, gen⟩ := se
    cases ent with
    | Used x => cases hins
    | Free nxt =>
      injection hins with hk hs2
      subst hs2
      subst hk
      unfold get
      dsimp only
      rw [List.getElem?_set_self (List.getElem?_eq_some.mp hg).1]
      simp

end Slab

/-- Claim C2 — Slab-level stale rejection: for every key `k` that was valid
when `Slab::remove(k)` ran, every subsequent `Slab::get(k)` and
`Slab::get_mut(k)` return `None` in every later state reachable by further
operations, even after a later `insert` reuses index `k.index`; such a
reusing insert returns a key whose generation is strictly greater than
`k.generation`.  Moreover the concrete trace of Scenario 1 holds with
capacity 2. -/
theorem c2_slab_stale_rejection :
    (∀ (T : Type) (s : Slab T) (k : SlabKey) (x : T),
      s.entries[k.index]? = some ⟨Entry.Used x, k.generation⟩ →
      ∀ s' : Slab T, Slab.Steps T (s.remove k) s' →
        (s'.get k = none ∧ s'.get_mut k = none) ∧
        (∀ (v : T) (k' : SlabKey) (s'' : Slab T),
          s'.insert v = Slab.InsertResult.ok k' s'' → k'.index = k.index →
          k.generation < k'.generation)) ∧
    (∃ s1 s2 s4 : Slab Nat,
      (Slab.new Nat 2).insert 10 = Slab.InsertResult.ok ⟨0, 0⟩ s1 ∧
      s1.insert 20 = Slab.InsertResult.ok ⟨1, 0⟩ s2 ∧
      (s2.remove ⟨0, 0⟩).insert 30 = Slab.InsertResult.ok ⟨0, 1⟩ s4 ∧
      s4.get ⟨0, 0⟩ = none ∧ s4.get ⟨0, 1⟩ = some 30) := by
  constructor
  · intro T s k x hvalid s' hsteps
    obtain ⟨hent, hnf, _⟩ := Slab.remove_valid hvalid
    have hlt : k.index < s.entries.length := (List.getElem?_eq_some.mp hvalid).1
    have hg0 : (s.remove k).entries[k.index]? =
        some ⟨Entry.Free s.next_free, k.generation + 1⟩ := by
      rw [hent]
      exact List.getElem?_set_self hlt
    obtain ⟨e', hg', hle⟩ := hsteps.generation_mono_closure hg0
    have hgen_lt : k.generation < e'.generation := by
      simp only at hle
      omega
    refine ⟨⟨Slab.get_eq_none_of_gen_ne hg' (Nat.ne_of_lt hgen_lt), ?_⟩, ?_⟩
    · rw [Slab.get_mut_eq_get]
      exact Slab.get_eq_none_of_gen_ne hg' (Nat.ne_of_lt hgen_lt)
    · intro v k' s'' hins hidx
      unfold Slab.insert at hins
      cases hg2 : s'.entries[s'.next_free]? with
      | none =>
        rw [hg2] at hins
        by_cases hb : s'.next_free ≥ s'.capacity
        · rw [if_pos hb] at hins; cases hins
        · rw [if_neg hb] at hins
          injection hins with hk hs2
          have : k'.index = s'.entries.length := by rw [← hk]
          rw [hidx] at this
          have : k.index < s'.entries.length := (List.getElem?_eq_some.mp hg').1
          omega
      | some se =>
        rw [hg2] at hins
        obtain ⟨ent, gen⟩ := se
        cases ent with
        | Used y => cases hins
        | Free nxt =>
          injection hins with hk hs2
          have hk' : k' = ⟨s'.next_free, gen⟩ := hk.symm
          subst hk'
          simp only at hidx
          rw [hidx] at hg2
          rw [hg'] at hg2
          have := Option.some.inj hg2
          subst this
          exact hgen_lt
  · exact ⟨_, _, _, rfl, rfl, rfl, rfl, rfl⟩

/-- Claim C3 — allocator bookkeeping invariant and unreachability of the
fatal branch: every state reachable from `Slab::new(c)` by `insert`,
`remove`, `get` and `get_mut` satisfies `used == count(Occupied)` and
`next_free` designates either a `Free` entry or the append position at the
end of the entries sequence; consequently the corruption branch of `insert`
(the abort taken when the entry at `next_free` is `Occupied`) is never
reached. -/
theorem c3_allocator_invariant (T : Type) (s : Slab T)
    (h : Slab.Reach T s) :
    s.used = Slab.countUsed s.entries ∧
    (Slab.isFree s.entries s.next_free ∨ s.next_free = s.entries.length) ∧
    (∀ v : T, s.insert v ≠ Slab.InsertResult.corrupted) := by
  obtain ⟨fl, hch, hnd, hmem, huse, hlen, hcap⟩ := h.inv
  have hdesig : Slab.isFree s.entries s.next_free ∨ s.next_free = s.entries.length := by
    cases fl with
    | nil => exact Or.inr hch
    | cons i rest =>
      obtain ⟨hi, nxt, gen, hg, _⟩ := hch
      subst hi
      exact Or.inl ⟨nxt, gen, hg⟩
  refine ⟨huse, hdesig, ?_⟩
  intro v hcor
  unfold Slab.insert at hcor
  rcases hdesig with ⟨nxt, gen, hg⟩ | hend
  · rw [hg] at hcor
    cases hcor
  · rw [List.getElem?_eq_none (le_of_eq hend.symm)] at hcor
    by_cases hb : s.next_free ≥ s.capacity
    · rw [if_pos hb] at hcor; cases hcor
    · rw [if_neg hb] at hcor; cases hcor

/-- Witness for C3: the invariant holds at a concrete reachable state. -/
theorem c3_allocator_invariant_witness :
    (Slab.new Nat 2).used = Slab.countUsed (Slab.new Nat 2).entries ∧
    (Slab.isFree (Slab.new Nat 2).entries (Slab.new Nat 2).next_free ∨
      (Slab.new Nat 2).next_free = (Slab.new Nat 2).entries.length) ∧
    (∀ v : Nat, (Slab.new Nat 2).insert v ≠ Slab.InsertResult.corrupted) :=
  c3_allocator_invariant Nat (Slab.new Nat 2) (Slab.Reach.new 2)

/-- Claim C4 — insert exhaustion condition: for a slab reachable from
`Slab::new(c)` with no intervening `increase_capacity` or `deallocate_to`,
`Slab::insert(value)` returns the explicit exhaustion outcome (`None`) if
and only if the number of occupied entries equals the reserved capacity;
otherwise it returns a key and the value becomes occupied at that key, with
no abort. -/
theorem c4_insert_exhaustion (T : Type) (s : Slab T) (v : T)
    (h : Slab.Reach T s) :
    (s.insert v = Slab.InsertResult.exhausted ↔
      Slab.countUsed s.entries = s.capacity) ∧
    (Slab.countUsed s.entries ≠ s.capacity →
      ∃ (k : SlabKey) (s' : Slab T),
        s.insert v = Slab.InsertResult.ok k s' ∧ s'.get k = some v) := by
  obtain ⟨fl, hch, hnd, hmem, huse, hlen, hcap⟩ := h.inv
  have hiff : s.insert v = Slab.InsertResult.exhausted ↔
      Slab.countUsed s.entries = s.capacity := by
    constructor
    · intro hex
      unfold Slab.insert at hex
      cases hg : s.entries[s.next_free]? with
      | some se =>
        rw [hg] at hex
        obtain ⟨ent, gen⟩ := se
        cases ent with
        | Used x => cases hex
        | Free nxt => cases hex
      | none =>
        rw [hg] at hex
        by_cases hb : s.next_free ≥ s.capacity
        · have hge : s.entries.length ≤ s.next_free := List.getElem?_eq_none_iff.mp hg
          cases fl with
          | cons i rest =>
            obtain ⟨hi, nxt, gen, hg2, _⟩ := hch
            subst hi
            rw [hg] at hg2
            cases hg2
          | nil =>
            have hnf : s.next_free = s.entries.length := hch
            simp only [List.length_nil, Nat.add_zero] at hlen
            omega
        · rw [if_neg hb] at hex
          cases hex
    · intro hfull
      cases fl with
      | cons i rest =>
        simp only [List.length_cons] at hlen
        omega
      | nil =>
        have hnf : s.next_free = s.entries.length := hch
        simp only [List.length_nil, Nat.add_zero] at hlen
        unfold Slab.insert
        rw [List.getElem?_eq_none (le_of_eq hnf.symm)]
        rw [if_pos (by omega)]
  refine ⟨hiff, ?_⟩
  intro hne
  cases hres : s.insert v with
  | exhausted => exact absurd (hiff.mp hres) hne
  | corrupted =>
    unfold Slab.insert at hres
    cases fl with
    | nil =>
      have hnf : s.next_free = s.entries.length := hch
      rw [List.getElem?_eq_none (le_of_eq hnf.symm)] at hres
      by_cases hb : s.next_free ≥ s.capacity
      · rw [if_pos hb] at hres; cases hres
      · rw [if_neg hb] at hres; cases hres
    | cons i rest =>
      obtain ⟨hi, nxt, gen, hg2, _⟩ := hch
      subst hi
      rw [hg2] at hres
      cases hres
  | ok k s' => exact ⟨k, s', rfl, Slab.insert_get hres⟩

/-- Witness for C4: at the freshly created slab of capacity 2 the
exhaustion test is false and insertion succeeds. -/
theorem c4_insert_exhaustion_witness :
    ((Slab.new Nat 2).insert 10 = Slab.InsertResult.exhausted ↔
      Slab.countUsed (Slab.new Nat 2).entries = (Slab.new Nat 2).capacity) ∧
    (Slab.countUsed (Slab.new Nat 2).entries ≠ (Slab.new Nat 2).capacity →
      ∃ (k : SlabKey) (s' : Slab Nat),
        (Slab.new Nat 2).insert 10 = Slab.InsertResult.ok k s' ∧
        s'.get k = some 10) :=
  c4_insert_exhaustion Nat (Slab.new Nat 2) 10 (Slab.Reach.new 2)

/-- Claim C5 — LIFO reuse order: if slot `kA` is freed by `remove` and then
slot `kB` is freed by `remove` (both valid at the moment of their removal),
the next two inserts succeed and reuse `kB`'s index first and `kA`'s index
second. -/
theorem c5_lifo_reuse (T : Type) (s : Slab T) (kA kB : SlabKey) (xA xB : T)
    (v1 v2 : T)
    (hA : s.entries[kA.index]? = some ⟨Entry.Used xA, kA.generation⟩)
    (hB : (s.remove kA).entries[kB.index]? = some ⟨Entry.Used xB, kB.generation⟩) :
    ∃ (k1 : SlabKey) (s3 : Slab T) (k2 : SlabKey) (s4 : Slab T),
      ((s.remove kA).remove kB).insert v1 = Slab.InsertResult.ok k1 s3 ∧
      k1.index = kB.index ∧
      s3.insert v2 = Slab.InsertResult.ok k2 s4 ∧
      k2.index = kA.index := by
  obtain ⟨hent1, hnf1, _⟩ := Slab.remove_valid hA
  obtain ⟨hent2, hnf2, _⟩ := Slab.remove_valid hB
  have hltA : kA.index < s.entries.length := (List.getElem?_eq_some.mp hA).1
  have hltB : kB.index < (s.remove kA).entries.length :=
    (List.getElem?_eq_some.mp hB).1
  have hne : kB.index ≠ kA.index := by
    intro heq
    rw [heq, hent1, List.getElem?_set_self hltA] at hB
    cases hB
  have hg2 : ((s.remove kA).remove kB).entries[((s.remove kA).remove kB).next_free]? =
      some ⟨Entry.Free kA.index, kB.generation + 1⟩ := by
    rw [hnf2, hent2, hnf1]
    exact List.getElem?_set_self hltB
  have hins1 := Slab.insert_of_free hg2 v1
  have hg3 : (({ (s.remove kA).remove kB with
      entries := ((s.remove kA).remove kB).entries.set
        ((s.remove kA).remove kB).next_free ⟨Entry.Used v1, kB.generation + 1⟩,
      next_free := kA.index,
      used := ((s.remove kA).remove kB).used + 1 } : Slab T)).entries[kA.index]? =
      some ⟨Entry.Free s.next_free, kA.generation + 1⟩ := by
    show (((s.remove kA).remove kB).entries.set ((s.remove kA).remove kB).next_free
        ⟨Entry.Used v1, kB.generation + 1⟩)[kA.index]? = _
    rw [hnf2, List.getElem?_set_ne hne, hent2, List.getElem?_set_ne hne,
      hent1, List.getElem?_set_self hltA]
  have hins2 := Slab.insert_of_free hg3 v2
  exact ⟨_, _, _, _, hins1, hnf2, hins2, rfl⟩

/-- Witness for C5: in a concrete two-slot slab holding 10 and 20, freeing
slot 0 then slot 1 makes the next two inserts reuse index 1 then index 0. -/
theorem c5_lifo_reuse_witness :
    ((⟨[⟨Entry.Used 10, 0⟩, ⟨Entry.Used 20, 0⟩], 2, 2, 2, 2⟩ : Slab Nat).entries[
        (⟨0, 0⟩ : SlabKey).index]? =
      some ⟨Entry.Used 10, (⟨0, 0⟩ : SlabKey).generation⟩) ∧
    (((⟨[⟨Entry.Used 10, 0⟩, ⟨Entry.Used 20, 0⟩], 2, 2, 2, 2⟩ : Slab Nat).remove
        ⟨0, 0⟩).entries[(⟨1, 0⟩ : SlabKey).index]? =
      some ⟨Entry.Used 20, (⟨1, 0⟩ : SlabKey).generation⟩) ∧
    (∃ (k1 : SlabKey) (s3 : Slab Nat) (k2 : SlabKey) (s4 : Slab Nat),
      (((⟨[⟨Entry.Used 10, 0⟩, ⟨Entry.Used 20, 0⟩], 2, 2, 2, 2⟩ : Slab Nat).remove
          ⟨0, 0⟩).remove ⟨1, 0⟩).insert 30 = Slab.InsertResult.ok k1 s3 ∧
      k1.index = (⟨1, 0⟩ : SlabKey).index ∧
      s3.insert 40 = Slab.InsertResult.ok k2 s4 ∧
      k2.index = (⟨0, 0⟩ : SlabKey).index) :=
  ⟨by decide, by decide,
    c5_lifo_reuse Nat ⟨[⟨Entry.Used 10, 0⟩, ⟨Entry.Used 20, 0⟩], 2, 2, 2, 2⟩
      ⟨0, 0⟩ ⟨1, 0⟩ 10 20 30 40 (by decide) (by decide)⟩

/-- Claim C10 — the stale-key guarantee of `Slab` does not survive a full
reset: `clear()` (and `deallocate_to(c)`) resets all generation counters
along with the contents, so after inserting a value and obtaining key
`{0,0}`, resetting, and inserting a new value, `Slab::get` with the
pre-reset key `{0,0}` returns the new, different value. -/
theorem c10_reset_forgets_generations :
    ∃ s1 : Slab Nat,
      (Slab.new Nat 1).insert 5 = Slab.InsertResult.ok ⟨0, 0⟩ s1 ∧
      (∃ s2 : Slab Nat,
        s1.clear.insert 7 = Slab.InsertResult.ok ⟨0, 0⟩ s2 ∧
        s2.get ⟨0, 0⟩ = some 7) ∧
      (∃ s3 : Slab Nat,
        (s1.deallocate_to 1).insert 9 = Slab.InsertResult.ok ⟨0, 0⟩ s3 ∧
        s3.get ⟨0, 0⟩ = some 9) := by
  refine ⟨_, rfl, ⟨_, rfl, by decide⟩, ⟨_, rfl, by decide⟩⟩

theorem ActorRef.downcast_self {κ : Type} [DecidableEq κ] {I : κ → Type}
    (t : κ) (h : ActorHandle I t) :
    ActorRef.downcast ⟨t, h⟩ t = some h := by
  unfold ActorRef.downcast
  rw [dif_pos rfl]

theorem ActorRef.downcast_ne {κ : Type} [DecidableEq κ] {I : κ → Type}
    (e : ActorRef κ I) {t : κ} (hne : e.tag ≠ t) : e.downcast t = none :=
  dif_neg hne

theorem ActorRef.eq_of_downcast {κ : Type} [DecidableEq κ] {I : κ → Type}
    {e : ActorRef κ I} {t : κ} {h : ActorHandle I t}
    (hd : e.downcast t = some h) : e = ⟨t, h⟩ := by
  obtain ⟨tag, hdl⟩ := e
  unfold ActorRef.downcast at hd
  by_cases ht : tag = t
  · subst ht
    rw [dif_pos rfl] at hd
    injection hd with hd2
    rw [← hd2]
  · rw [dif_neg ht] at hd
    cases hd

theorem Slacktor.get_some_elim {κ : Type} [DecidableEq κ] {I : κ → Type}
    {s : Slacktor κ I} {t : κ} {id : Nat} {h : ActorHandle I t}
    (hg : s.get t id = some h) :
    s.slab.entries[id]? = some (XEntry.occupied ⟨t, h⟩) := by
  unfold Slacktor.get XSlab.get at hg
  cases he : s.slab.entries[id]? with
  | none => rw [he] at hg; cases hg
  | some e =>
    rw [he] at hg
    cases e with
    | vacant n => cases hg
    | occupied a =>
      have hd : a.downcast t = some h := hg
      rw [ActorRef.eq_of_downcast hd]

/-- Claim C6 — spawn/get/send round-trip: for every actor value `a` of any
concrete type `t`, `Slacktor::spawn(a)` followed immediately by
`Slacktor::get` at the declared type `t` and the returned id yields a
present handle wrapping exactly the spawned instance, and `send` invokes
the actor's own handler on the message and returns exactly its result.
Concretely, for an actor storing 7 whose handler XORs the payload against
the stored value, sending payload 5 returns 2. -/
theorem c6_spawn_get_send_roundtrip :
    (∀ (κ : Type) (I : κ → Type) [DecidableEq κ] (s : Slacktor κ I) (t : κ)
        (a : I t) (id : Nat) (s' : Slacktor κ I),
      s.spawn t a = some (id, s') →
      ∃ h : ActorHandle I t, s'.get t id = some h ∧ h.val = a ∧
        ∀ (M R : Type) (handler : I t → M → R) (m : M),
          h.send handler m = handler a m) ∧
    (∃ (s1 : Slacktor TestTy TestInterp)
        (h : ActorHandle TestInterp TestTy.testActor),
      (Slacktor.new TestTy TestInterp).spawn TestTy.testActor 7 = some (0, s1) ∧
      s1.get TestTy.testActor 0 = some h ∧
      h.send testHandler 5 = 2) := by
  constructor
  · intro κ I _ s t a id s' hsp
    unfold Slacktor.spawn at hsp
    obtain ⟨⟨id2, xs⟩, hins, heq⟩ := Option.map_eq_some'.mp hsp
    simp only [Prod.mk.injEq] at heq
    obtain ⟨hid, hs'⟩ := heq
    subst hid
    subst hs'
    refine ⟨⟨a⟩, ?_, rfl, fun M R handler m => rfl⟩
    unfold XSlab.insert at hins
    by_cases hend : s.slab.next = s.slab.entries.length
    · rw [if_pos hend] at hins
      injection hins with hins2
      simp only [Prod.mk.injEq] at hins2
      obtain ⟨hid2, hxs⟩ := hins2
      subst hxs
      unfold Slacktor.get XSlab.get
      dsimp only
      rw [← hid2, hend, List.getElem?_concat_length]
      exact ActorRef.downcast_self t ⟨a⟩
    · rw [if_neg hend] at hins
      cases hg : s.slab.entries[s.slab.next]? with
      | none => rw [hg] at hins; cases hins
      | some e =>
        rw [hg] at hins
        cases e with
        | occupied b => cases hins
        | vacant nxt =>
          injection hins with hins2
          simp only [Prod.mk.injEq] at hins2
          obtain ⟨hid2, hxs⟩ := hins2
          subst hxs
          have hlt : s.slab.next < s.slab.entries.length :=
            (List.getElem?_eq_some.mp hg).1
          unfold Slacktor.get XSlab.get
          dsimp only
          rw [← hid2, List.getElem?_set_self hlt]
          exact ActorRef.downcast_self t ⟨a⟩
  · exact ⟨_, _, rfl, rfl, by decide⟩

/-- Claim C7 — type-mismatch lookup: for every id currently holding a live
actor of concrete type `tA`, `Slacktor::get` at a different declared type
`tB` returns absent, while `get` at `tA` on the same id returns a present
handle; concretely, after spawning a `Nat`-holding test actor, `get` at the
other declared type is absent for the same valid id. -/
theorem c7_type_mismatch_get :
    (∀ (κ : Type) (I : κ → Type) [DecidableEq κ] (s : Slacktor κ I)
        (tA tB : κ) (id : Nat) (h : ActorHandle I tA),
      s.get tA id = some h → tB ≠ tA → s.get tB id = none) ∧
    (∃ s1 : Slacktor TestTy TestInterp,
      (Slacktor.new TestTy TestInterp).spawn TestTy.testActor 7 = some (0, s1) ∧
      s1.get TestTy.otherActor 0 = none ∧
      (∃ h : ActorHandle TestInterp TestTy.testActor,
        s1.get TestTy.testActor 0 = some h)) := by
  constructor
  · intro κ I _ s tA tB id h hgA hne
    have hocc := Slacktor.get_some_elim hgA
    unfold Slacktor.get XSlab.get
    rw [hocc]
    exact ActorRef.downcast_ne ⟨tA, h⟩ (fun he => hne he.symm)
  · exact ⟨_, rfl, rfl, ⟨⟨7⟩, rfl⟩⟩

/-- Claim C8 — kill contract: for every id of a live actor, `Slacktor::kill`
removes the registry's tracking of the id (every subsequent `get` at any
declared type returns absent before any reuse) and invokes exactly that
actor's `destroy` hook exactly once; the async, type-parameterized kill
invoked at the actor's own type reaches the same state, returns `Some(())`
and likewise runs the hook exactly once; and a handle clone obtained before
the kill still performs `send` successfully afterwards, reaching the same
actor value. -/
theorem c8_kill_contract (κ : Type) (I : κ → Type) [DecidableEq κ]
    (s : Slacktor κ I) (t : κ) (id : Nat) (h : ActorHandle I t)
    (hg : s.get t id = some h) :
    (∀ t' : κ, (s.kill id).1.get t' id = none) ∧
    (s.kill id).2 = [⟨t, h⟩] ∧
    (s.kill_async t id).1 = (s.kill id).1 ∧
    (s.kill_async t id).2.1 = some () ∧
    (s.kill_async t id).2.2 = [⟨t, h⟩] ∧
    (∀ (M R : Type) (handler : I t → M → R) (m : M),
      h.clone.send handler m = handler h.val m) := by
  have hocc := Slacktor.get_some_elim hg
  have hlt : id < s.slab.entries.length := (List.getElem?_eq_some.mp hocc).1
  have hcon : s.slab.contains id = true := by
    unfold XSlab.contains
    rw [hocc]
  have hrem : s.slab.remove id = some (⟨t, h⟩,
      ⟨s.slab.entries.set id (XEntry.vacant s.slab.next), id, s.slab.len - 1⟩) := by
    unfold XSlab.remove
    rw [hocc]
  have hkill : s.kill id = (⟨⟨s.slab.entries.set id (XEntry.vacant s.slab.next),
      id, s.slab.len - 1⟩⟩, [⟨t, h⟩]) := by
    unfold Slacktor.kill
    rw [if_pos hcon, hrem]
  have hkasync : s.kill_async t id = (⟨⟨s.slab.entries.set id
      (XEntry.vacant s.slab.next), id, s.slab.len - 1⟩⟩, some (), [⟨t, h⟩]) := by
    unfold Slacktor.kill_async
    rw [if_pos hcon, hrem]
    dsimp only
    rw [ActorRef.downcast_self]
  refine ⟨?_, by rw [hkill], by rw [hkill, hkasync], by rw [hkasync],
    by rw [hkasync], fun M R handler m => rfl⟩
  intro t'
  rw [hkill]
  unfold Slacktor.get XSlab.get
  dsimp only
  rw [List.getElem?_set_self hlt]
  rfl

/-- Witness for C8: concrete one-actor registry; killing the spawned actor
empties the registry and runs its hook once in both configurations. -/
theorem c8_kill_contract_witness :
    ((⟨⟨[XEntry.occupied ⟨TestTy.testActor, ⟨7⟩⟩], 1, 1⟩⟩ :
        Slacktor TestTy TestInterp).get TestTy.testActor 0 = some ⟨7⟩) ∧
    ((∀ t' : TestTy, ((⟨⟨[XEntry.occupied ⟨TestTy.testActor, ⟨7⟩⟩], 1, 1⟩⟩ :
        Slacktor TestTy TestInterp).kill 0).1.get t' 0 = none) ∧
    ((⟨⟨[XEntry.occupied ⟨TestTy.testActor, ⟨7⟩⟩], 1, 1⟩⟩ :
        Slacktor TestTy TestInterp).kill 0).2 = [⟨TestTy.testActor, ⟨7⟩⟩] ∧
    ((⟨⟨[XEntry.occupied ⟨TestTy.testActor, ⟨7⟩⟩], 1, 1⟩⟩ :
        Slacktor TestTy TestInterp).kill_async TestTy.testActor 0).1 =
      ((⟨⟨[XEntry.occupied ⟨TestTy.testActor, ⟨7⟩⟩], 1, 1⟩⟩ :
        Slacktor TestTy TestInterp).kill 0).1 ∧
    ((⟨⟨[XEntry.occupied ⟨TestTy.testActor, ⟨7⟩⟩], 1, 1⟩⟩ :
        Slacktor TestTy TestInterp).kill_async TestTy.testActor 0).2.1 = some () ∧
    ((⟨⟨[XEntry.occupied ⟨TestTy.testActor, ⟨7⟩⟩], 1, 1⟩⟩ :
        Slacktor TestTy TestInterp).kill_async TestTy.testActor 0).2.2 =
      [⟨TestTy.testActor, ⟨7⟩⟩] ∧
    (∀ (M R : Type) (handler : TestInterp TestTy.testActor → M → R) (m : M),
      (⟨7⟩ : ActorHandle TestInterp TestTy.testActor).clone.send handler m =
        handler 7 m)) :=
  ⟨rfl, c8_kill_contract TestTy TestInterp
    ⟨⟨[XEntry.occupied ⟨TestTy.testActor, ⟨7⟩⟩], 1, 1⟩⟩
    TestTy.testActor 0 ⟨7⟩ rfl⟩

/-- Counterexample to claim C1 as stated: registry identifiers returned by
`Slacktor::spawn` are plain slab indices with no generation, so an
identifier obtained from `spawn` and then passed to `kill` does resolve,
via a later `get`, to a different actor spawned afterwards: spawn an actor
holding 7 (id 0), kill id 0, spawn an actor holding 9 — it receives the
same identifier 0 — and `get` with the stale identifier 0 now yields the
new actor holding 9. -/
theorem c1_stale_id_counterexample :
    ∃ (s1 s2 : Slacktor TestTy TestInterp)
      (d : List (ActorRef TestTy TestInterp))
      (s3 : Slacktor TestTy TestInterp),
      (Slacktor.new TestTy TestInterp).spawn TestTy.testActor 7 = some (0, s1) ∧
      s1.kill 0 = (s2, d) ∧
      s2.spawn TestTy.testActor 9 = some (0, s3) ∧
      (∃ h : ActorHandle TestInterp TestTy.testActor,
        s3.get TestTy.testActor 0 = some h ∧ h.val = 9 ∧ (9 : Nat) ≠ 7) :=
  ⟨_, _, _, _, rfl, rfl, rfl, ⟨⟨9⟩, rfl, rfl, by decide⟩⟩

/-- Claim C1 amended — what does hold at the registry level: identifiers
are never aliased between distinct live actors.  If `id1` currently
resolves to a live actor, a spawn returns a different identifier `id2` and
leaves the actor at `id1` untouched (so two simultaneously live actors
never hold equal identifiers); the stale-identifier half of the original
claim fails because identifiers carry no generation. -/
theorem c1_live_id_uniqueness (κ : Type) (I : κ → Type) [DecidableEq κ]
    (s : Slacktor κ I) (t1 : κ) (id1 : Nat) (h1 : ActorHandle I t1) (t : κ)
    (a : I t) (id2 : Nat) (s' : Slacktor κ I)
    (hg1 : s.get t1 id1 = some h1) (hsp : s.spawn t a = some (id2, s')) :
    id2 ≠ id1 ∧ s'.get t1 id1 = some h1 := by
  have hocc := Slacktor.get_some_elim hg1
  have hlt : id1 < s.slab.entries.length := (List.getElem?_eq_some.mp hocc).1
  unfold Slacktor.spawn at hsp
  obtain ⟨⟨idp, xs⟩, hins, heq⟩ := Option.map_eq_some'.mp hsp
  simp only [Prod.mk.injEq] at heq
  obtain ⟨hid, hs'⟩ := heq
  subst hid
  subst hs'
  unfold XSlab.insert at hins
  by_cases hend : s.slab.next = s.slab.entries.length
  · rw [if_pos hend] at hins
    injection hins with hins2
    simp only [Prod.mk.injEq] at hins2
    obtain ⟨hid2, hxs⟩ := hins2
    subst hxs
    have hne : idp ≠ id1 := by omega
    refine ⟨hne, ?_⟩
    unfold Slacktor.get XSlab.get
    dsimp only
    rw [List.getElem?_append, if_pos hlt, hocc]
    exact ActorRef.downcast_self t1 h1
  · rw [if_neg hend] at hins
    cases hgn : s.slab.entries[s.slab.next]? with
    | none => rw [hgn] at hins; cases hins
    | some e =>
      rw [hgn] at hins
      cases e with
      | occupied b => cases hins
      | vacant nxt =>
        injection hins with hins2
        simp only [Prod.mk.injEq] at hins2
        obtain ⟨hid2, hxs⟩ := hins2
        subst hxs
        have hne : idp ≠ id1 := by
          intro he
          rw [hid2, he] at hgn
          rw [hocc] at hgn
          cases hgn
        refine ⟨hne, ?_⟩
        unfold Slacktor.get XSlab.get
        dsimp only
        rw [← hid2] at hne
        rw [List.getElem?_set_ne (by omega), hocc]
        exact ActorRef.downcast_self t1 h1

/-- Witness for the amended C1: with an actor holding 7 live at id 0, a
further spawn returns the fresh id 1 and id 0 still resolves to the old
actor. -/
theorem c1_live_id_uniqueness_witness :
    ((⟨⟨[XEntry.occupied ⟨TestTy.testActor, ⟨7⟩⟩], 1, 1⟩⟩ :
        Slacktor TestTy TestInterp).get TestTy.testActor 0 = some ⟨7⟩) ∧
    (∃ s' : Slacktor TestTy TestInterp,
      (⟨⟨[XEntry.occupied ⟨TestTy.testActor, ⟨7⟩⟩], 1, 1⟩⟩ :
        Slacktor TestTy TestInterp).spawn TestTy.otherActor true =
          some (1, s') ∧
      (1 ≠ 0 ∧ s'.get TestTy.testActor 0 = some ⟨7⟩)) :=
  ⟨rfl, ⟨_, rfl, c1_live_id_uniqueness TestTy TestInterp
    ⟨⟨[XEntry.occupied ⟨TestTy.testActor, ⟨7⟩⟩], 1, 1⟩⟩
    TestTy.testActor 0 ⟨7⟩ TestTy.otherActor true 1 _ rfl rfl⟩⟩

/-- Counterexample to claim C9 as stated: with a spawn interleaved between
the two kills, the second `kill(id)` is not a no-op — identifiers carry no
generation, so after `spawn 7 -> 0; kill 0; spawn 9 -> 0` (the interleaved
spawn reuses id 0 and is live), a second `kill 0` invokes a `destroy` hook
again (one more teardown) and destroys the interleaved live actor, whose
`get` turns absent. -/
theorem c9_double_kill_counterexample :
    ∃ (s1 s2 : Slacktor TestTy TestInterp)
      (d1 : List (ActorRef TestTy TestInterp))
      (s4 : Slacktor TestTy TestInterp),
      (Slacktor.new TestTy TestInterp).spawn TestTy.testActor 7 = some (0, s1) ∧
      s1.kill 0 = (s2, d1) ∧
      s2.spawn TestTy.testActor 9 = some (0, s4) ∧
      (∃ h : ActorHandle TestInterp TestTy.testActor,
        s4.get TestTy.testActor 0 = some h ∧ h.val = 9) ∧
      (s4.kill 0).2.length = 1 ∧
      (s4.kill 0).1.get TestTy.testActor 0 = none :=
  ⟨_, _, _, _, rfl, rfl, rfl, ⟨⟨9⟩, rfl, rfl⟩, rfl, rfl⟩

/-- Claim C9 amended — `kill` is idempotent when the two kills are
consecutive (no operations in between): the second kill leaves the state
unchanged and invokes no teardown hook; and a kill never disturbs any other
live actor — `get` at every other id is unchanged.  With an interleaved
spawn that reuses the bare id, the second kill does affect the new
occupant, as the counterexample shows. -/
theorem c9_kill_idempotent (κ : Type) (I : κ → Type) [DecidableEq κ]
    (s : Slacktor κ I) (id : Nat) :
    ((s.kill id).1.kill id = ((s.kill id).1, [])) ∧
    (∀ (t : κ) (j : Nat), j ≠ id → (s.kill id).1.get t j = s.get t j) := by
  cases he : s.slab.entries[id]? with
  | none =>
    have hcon : s.slab.contains id = false := by
      unfold XSlab.contains
      rw [he]
    have hkill0 : s.kill id = (s, []) := by
      unfold Slacktor.kill
      rw [if_neg (by simp [hcon])]
    rw [hkill0]
    exact ⟨hkill0, fun t j _ => rfl⟩
  | some e =>
    cases e with
    | vacant n =>
      have hcon : s.slab.contains id = false := by
        unfold XSlab.contains
        rw [he]
      have hkill0 : s.kill id = (s, []) := by
        unfold Slacktor.kill
        rw [if_neg (by simp [hcon])]
      rw [hkill0]
      exact ⟨hkill0, fun t j _ => rfl⟩
    | occupied a =>
      have hcon : s.slab.contains id = true := by
        unfold XSlab.contains
        rw [he]
      have hlt : id < s.slab.entries.length := (List.getElem?_eq_some.mp he).1
      have hrem : s.slab.remove id = some (a,
          ⟨s.slab.entries.set id (XEntry.vacant s.slab.next), id,
            s.slab.len - 1⟩) := by
        unfold XSlab.remove
        rw [he]
      have hkill1 : s.kill id = (⟨⟨s.slab.entries.set id
          (XEntry.vacant s.slab.next), id, s.slab.len - 1⟩⟩, [a]) := by
        unfold Slacktor.kill
        rw [if_pos hcon, hrem]
      have hcon2 : (XSlab.mk (s.slab.entries.set id (XEntry.vacant s.slab.next))
          id (s.slab.len - 1)).contains id = false := by
        unfold XSlab.contains
        dsimp only
        rw [List.getElem?_set_self hlt]
      have hkill2 : (Slacktor.mk (XSlab.mk (s.slab.entries.set id
          (XEntry.vacant s.slab.next)) id (s.slab.len - 1)) :
            Slacktor κ I).kill id =
          (⟨⟨s.slab.entries.set id (XEntry.vacant s.slab.next), id,
            s.slab.len - 1⟩⟩, []) := by
        unfold Slacktor.kill
        rw [if_neg (by simp [hcon2])]
      rw [hkill1]
      refine ⟨hkill2, ?_⟩
      intro t j hj
      unfold Slacktor.get XSlab.get
      dsimp only
      rw [List.getElem?_set_ne (fun hh => hj hh.symm)]

/-- Witness for the amended C9: concrete two-actor registry; killing id 0
twice in a row equals killing it once with no extra hook, and the live
actor at id 1 is untouched. -/
theorem c9_kill_idempotent_witness :
    (((⟨⟨[XEntry.occupied ⟨TestTy.testActor, ⟨7⟩⟩,
          XEntry.occupied ⟨TestTy.otherActor, ⟨true⟩⟩], 2, 2⟩⟩ :
        Slacktor TestTy TestInterp).kill 0).1.kill 0 =
      (((⟨⟨[XEntry.occupied ⟨TestTy.testActor, ⟨7⟩⟩,
          XEntry.occupied ⟨TestTy.otherActor, ⟨true⟩⟩], 2, 2⟩⟩ :
        Slacktor TestTy TestInterp).kill 0).1, [])) ∧
    ((1 : Nat) ≠ 0 ∧
      ((⟨⟨[XEntry.occupied ⟨TestTy.testActor, ⟨7⟩⟩,
          XEntry.occupied ⟨TestTy.otherActor, ⟨true⟩⟩], 2, 2⟩⟩ :
        Slacktor TestTy TestInterp).kill 0).1.get TestTy.otherActor 1 =
      (⟨⟨[XEntry.occupied ⟨TestTy.testActor, ⟨7⟩⟩,
          XEntry.occupied ⟨TestTy.otherActor, ⟨true⟩⟩], 2, 2⟩⟩ :
        Slacktor TestTy TestInterp).get TestTy.otherActor 1) :=
  ⟨(c9_kill_idempotent TestTy TestInterp
      ⟨⟨[XEntry.occupied ⟨TestTy.testActor, ⟨7⟩⟩,
        XEntry.occupied ⟨TestTy.otherActor, ⟨true⟩⟩], 2, 2⟩⟩ 0).1,
    by decide,
    (c9_kill_idempotent TestTy TestInterp
      ⟨⟨[XEntry.occupied ⟨TestTy.testActor, ⟨7⟩⟩,
        XEntry.occupied ⟨TestTy.otherActor, ⟨true⟩⟩], 2, 2⟩⟩ 0).2
      TestTy.otherActor 1 (by decide)⟩

/-- Witness for C2: the universal stale-rejection part applied at a
concrete one-slot slab, with the trivial (empty) later-operation
sequence. -/
theorem c2_slab_stale_rejection_witness :
    ((⟨[⟨Entry.Used 5, 0⟩], 1, 1, 1, 1⟩ : Slab Nat).entries[
        (⟨0, 0⟩ : SlabKey).index]? =
      some ⟨Entry.Used 5, (⟨0, 0⟩ : SlabKey).generation⟩) ∧
    ((((⟨[⟨Entry.Used 5, 0⟩], 1, 1, 1, 1⟩ : Slab Nat).remove ⟨0, 0⟩).get
        ⟨0, 0⟩ = none ∧
      ((⟨[⟨Entry.Used 5, 0⟩], 1, 1, 1, 1⟩ : Slab Nat).remove ⟨0, 0⟩).get_mut
        ⟨0, 0⟩ = none) ∧
    (∀ (v : Nat) (k' : SlabKey) (s'' : Slab Nat),
      ((⟨[⟨Entry.Used 5, 0⟩], 1, 1, 1, 1⟩ : Slab Nat).remove ⟨0, 0⟩).insert v =
        Slab.InsertResult.ok k' s'' → k'.index = (⟨0, 0⟩ : SlabKey).index →
      (⟨0, 0⟩ : SlabKey).generation < k'.generation)) :=
  ⟨by decide, c2_slab_stale_rejection.1 Nat ⟨[⟨Entry.Used 5, 0⟩], 1, 1, 1, 1⟩
    ⟨0, 0⟩ 5 (by decide) ((⟨[⟨Entry.Used 5, 0⟩], 1, 1, 1, 1⟩ : Slab Nat).remove
      ⟨0, 0⟩) Relation.ReflTransGen.refl⟩

/-- Witness for C6: the universal round-trip part applied at the fresh
registry and the XOR test actor holding 7. -/
theorem c6_spawn_get_send_roundtrip_witness :
    ((Slacktor.new TestTy TestInterp).spawn TestTy.testActor 7 =
      some (0, (⟨⟨[XEntry.occupied ⟨TestTy.testActor, ⟨7⟩⟩], 1, 1⟩⟩ :
        Slacktor TestTy TestInterp))) ∧
    (∃ h : ActorHandle TestInterp TestTy.testActor,
      (⟨⟨[XEntry.occupied ⟨TestTy.testActor, ⟨7⟩⟩], 1, 1⟩⟩ :
        Slacktor TestTy TestInterp).get TestTy.testActor 0 = some h ∧
      h.val = 7 ∧
      ∀ (M R : Type) (handler : TestInterp TestTy.testActor → M → R) (m : M),
        h.send handler m = handler 7 m) :=
  ⟨rfl, c6_spawn_get_send_roundtrip.1 TestTy TestInterp
    (Slacktor.new TestTy TestInterp) TestTy.testActor 7 0
    ⟨⟨[XEntry.occupied ⟨TestTy.testActor, ⟨7⟩⟩], 1, 1⟩⟩ rfl⟩

/-- Witness for C7: the universal mismatch part applied at a concrete
registry holding one test actor. -/
theorem c7_type_mismatch_get_witness :
    ((⟨⟨[XEntry.occupied ⟨TestTy.testActor, ⟨7⟩⟩], 1, 1⟩⟩ :
        Slacktor TestTy TestInterp).get TestTy.testActor 0 = some ⟨7⟩) ∧
    TestTy.otherActor ≠ TestTy.testActor ∧
    (⟨⟨[XEntry.occupied ⟨TestTy.testActor, ⟨7⟩⟩], 1, 1⟩⟩ :
        Slacktor TestTy TestInterp).get TestTy.otherActor 0 = none :=
  ⟨rfl, by decide, c7_type_mismatch_get.1 TestTy TestInterp
    ⟨⟨[XEntry.occupied ⟨TestTy.testActor, ⟨7⟩⟩], 1, 1⟩⟩
    TestTy.testActor TestTy.otherActor 0 ⟨7⟩ rfl (by decide)⟩
